import Mathlib

/-!
# Verification of the attendance-system record layer

Shallow embedding of the identity directory, attendance ledger and
reporting facade of the repository (files `src/services/identity_service.py`
and `src/api/easy_api.py`), together with proofs of the behavioural claims
made by the specification.

Modelling conventions:
* the SQLAlchemy session/database is a pure state value `DB` holding the
  identity table and the attendance table in insertion order;
* calendar dates are day numbers (`Int`), timestamps are seconds (`Int`);
* Python `None` becomes `Option`, raised exceptions become `Except` values
  paired with the (possibly rolled back) database state;
* the ORM models file and `src/services/attendance_service.py` are imported
  by the code but absent from the sources; the unique constraints and the
  attendance-service operations are modelled from the specification and
  carry a `Modelled from the spec:` doc comment.
-/

/-- Error taxonomy of the spec (§7).  The Python code raises `ValueError`
with a message; the spec classifies those into this taxonomy
(`NotFoundError`, `ConflictError`, `PreconditionError`, `ValidationError`). -/
inductive ApiErr where
  | notFound
  | conflict
  | precondition
  | validation
deriving DecidableEq

/-- Row of the `identities` table, as used by `identity_service.py` and
`easy_api.py`: fields `id`, `name`, `email`, `employee_id`, `phone`,
`created_at`, `is_active` (the ORM model file itself is missing from the
sources; the field set is the one every caller uses). -/
structure Identity where
  id : Nat
  name : String
  email : String
  employee_id : String
  phone : Option String
  created_at : Nat
  is_active : Bool
deriving DecidableEq

/-- Row of the `attendance` table: fields `id`, `identity_id`, `date`,
`status`, `check_in`, `check_out`, as read by `easy_api.py`. -/
structure Attendance where
  id : Nat
  identity_id : Nat
  date : Int
  status : String
  check_in : Option Int
  check_out : Option Int
deriving DecidableEq

/-- The database state: both tables in insertion order plus the
autoincrement counters that assign fresh primary keys. -/
structure DB where
  identities : List Identity
  attendances : List Attendance
  next_identity_id : Nat
  next_attendance_id : Nat
deriving DecidableEq

/-- `EmployeeData` from `easy_api.py` (the value objects returned to
callers). -/
structure EmployeeData where
  name : String
  email : String
  employee_id : String
  phone : Option String
  is_active : Bool
deriving DecidableEq

/-- `EmployeeData.from_identity` from `easy_api.py` (total here: the
`None` guard of the Python classmethod is rendered by `Option.map` at the
call sites). -/
def EmployeeData.from_identity (i : Identity) : EmployeeData :=
  ⟨i.name, i.email, i.employee_id, i.phone, i.is_active⟩

/-- The attendance-details dictionary returned by the attendance functions
of `easy_api.py`. -/
structure AttendanceDetails where
  employee_id : String
  employee_name : String
  date : Int
  check_in : Option Int
  check_out : Option Int
  status : String
deriving DecidableEq

/- ========== IdentityService (src/services/identity_service.py) ========== -/

/-- `IdentityService.get_all_identities(skip, limit)`:
`query(Identity).offset(skip).limit(limit).all()` over insertion order. -/
def get_all_identities (db : DB) (skip limit : Nat) : List Identity :=
  (db.identities.drop skip).take limit

/-- `IdentityService.get_identity_by_id`: first row with this id. -/
def get_identity_by_id (db : DB) (identity_id : Nat) : Option Identity :=
  db.identities.find? (fun i => i.id = identity_id)

/-- `IdentityService.get_identity_by_employee_id`. -/
def get_identity_by_employee_id (db : DB) (employee_id : String) : Option Identity :=
  db.identities.find? (fun i => i.employee_id = employee_id)

/-- `IdentityService.get_identity_by_email`. -/
def get_identity_by_email (db : DB) (email : String) : Option Identity :=
  db.identities.find? (fun i => i.email = email)

/-- `IdentityService.create_identity`: inserts a fresh row and commits;
an `IntegrityError` is rolled back and re-raised as
`ValueError("Identity with this email or employee ID already exists")`,
i.e. a `ConflictError`.  Modelled from the spec: the unique constraints
live in the missing ORM models file; §3 "email and external identifier are
each unique across all identities, including inactive ones". -/
def create_identity (db : DB) (name email employee_id : String) (phone : Option String)
    (is_active : Bool) (now : Nat) : Except ApiErr Identity × DB :=
  if db.identities.any (fun j => decide (j.email = email ∨ j.employee_id = employee_id)) then
    (.error .conflict, db)
  else
    (.ok ⟨db.next_identity_id, name, email, employee_id, phone, now, is_active⟩,
     { db with
        identities :=
          db.identities ++ [⟨db.next_identity_id, name, email, employee_id, phone, now, is_active⟩],
        next_identity_id := db.next_identity_id + 1 })

/-- One keyword argument of `IdentityService.update_identity(**kwargs)`:
the attribute names the Python `setattr` loop accepts. -/
inductive FieldVal where
  | name (v : String)
  | email (v : String)
  | phone (v : Option String)
  | employee_id (v : String)
  | is_active (v : Bool)
  | idField (v : Nat)
  | created_at (v : Nat)
deriving DecidableEq

/-- The `setattr(identity, key, value)` step of `update_identity`. -/
def setField (i : Identity) : FieldVal → Identity
  | .name v => { i with name := v }
  | .email v => { i with email := v }
  | .phone v => { i with phone := v }
  | .employee_id v => { i with employee_id := v }
  | .is_active v => { i with is_active := v }
  | .idField v => { i with id := v }
  | .created_at v => { i with created_at := v }

/-- Whether a keyword argument is one of the three fields the spec's
`update(id, fields)` accepts (name/email/phone). -/
def isNameEmailPhone : FieldVal → Bool
  | .name _ => true
  | .email _ => true
  | .phone _ => true
  | _ => false

/-- `IdentityService.update_identity(identity_id, **kwargs)`: looks the row
up (raising `ValueError` — a `NotFoundError` — when absent), applies
`setattr` for each provided field and commits; an `IntegrityError` at
commit is rolled back and re-raised as
`ValueError("Update failed due to constraint violation")`, a
`ConflictError`.  The commit-time uniqueness check against the other rows
is Modelled from the spec (§3 uniqueness invariant), the constraint being
declared in the missing ORM models file. -/
def update_identity (db : DB) (identity_id : Nat) (fields : List FieldVal) :
    Except ApiErr Identity × DB :=
  match db.identities.find? (fun i => i.id = identity_id) with
  | none => (.error .notFound, db)
  | some i =>
    if db.identities.any (fun j =>
        decide (j.id ≠ identity_id ∧
          (j.email = (fields.foldl setField i).email ∨
           j.employee_id = (fields.foldl setField i).employee_id))) then
      (.error .conflict, db)
    else
      (.ok (fields.foldl setField i),
       { db with
          identities :=
            db.identities.map (fun j => if j.id = identity_id then fields.foldl setField i else j) })

/-- `IdentityService.deactivate_identity`: `update_identity(id, is_active=False)`. -/
def deactivate_identity (db : DB) (identity_id : Nat) : Except ApiErr Identity × DB :=
  update_identity db identity_id [.is_active false]

/-- `IdentityService.reactivate_identity`: `update_identity(id, is_active=True)`. -/
def reactivate_identity (db : DB) (identity_id : Nat) : Except ApiErr Identity × DB :=
  update_identity db identity_id [.is_active true]

/- ========== AttendanceService (file missing from the sources) ==========

The package imports `src.services.attendance_service.AttendanceService`
(used by `easy_api.py`, `manualtest.py` and the tests), but that file is
not among the sources; only its call sites and the spec describe it.  The
operations below are Modelled from the spec, §4.2 "Attendance Ledger". -/

/-- Modelled from the spec: `AttendanceService.get_attendance_by_date_range
(identity_id, start_date, end_date)` — "`getByDateRange(identityId, start,
end) -> sequence` (inclusive bounds on both ends)". -/
def svc_get_attendance_by_date_range (db : DB) (identity_id : Nat) (start_date end_date : Int) :
    List Attendance :=
  db.attendances.filter (fun a =>
    decide (a.identity_id = identity_id ∧ start_date ≤ a.date ∧ a.date ≤ end_date))

/-- Modelled from the spec: `AttendanceService.get_attendance_by_date(date)`
— "`getByDate(date) -> sequence`". -/
def svc_get_attendance_by_date (db : DB) (d : Int) : List Attendance :=
  db.attendances.filter (fun a => decide (a.date = d))

/-- Modelled from the spec: `AttendanceService.record_check_in(identity_id,
attendance_date, check_in_time)` — "if no record exists for (identityId,
date), creates one with status Present and check-in=timestamp; if a record
exists, overwrites check-in=timestamp and sets status to Present
(check-in always implies presence).  Fails with `NotFoundError` if
identityId does not resolve to an existing identity." -/
def svc_record_check_in (db : DB) (identity_id : Nat) (d ts : Int) :
    Except ApiErr Attendance × DB :=
  match db.identities.find? (fun i => i.id = identity_id) with
  | none => (.error .notFound, db)
  | some _ =>
    match db.attendances.find? (fun a => decide (a.identity_id = identity_id ∧ a.date = d)) with
    | some a =>
      (.ok { a with check_in := some ts, status := "Present" },
       { db with attendances := db.attendances.map (fun b =>
          if b.id = a.id then { a with check_in := some ts, status := "Present" } else b) })
    | none =>
      (.ok ⟨db.next_attendance_id, identity_id, d, "Present", some ts, none⟩,
       { db with
          attendances := db.attendances ++ [⟨db.next_attendance_id, identity_id, d, "Present", some ts, none⟩],
          next_attendance_id := db.next_attendance_id + 1 })

/-- Modelled from the spec: `AttendanceService.record_check_out(identity_id,
attendance_date, check_out_time)` — "fails with `PreconditionError` if no
record with a check-in exists for (identityId, date) — check-out without a
prior check-in is invalid.  On success, sets check-out=timestamp, leaves
status unchanged." -/
def svc_record_check_out (db : DB) (identity_id : Nat) (d ts : Int) :
    Except ApiErr Attendance × DB :=
  match db.attendances.find? (fun a => decide (a.identity_id = identity_id ∧ a.date = d)) with
  | none => (.error .precondition, db)
  | some a =>
    match a.check_in with
    | none => (.error .precondition, db)
    | some _ =>
      (.ok { a with check_out := some ts },
       { db with attendances := db.attendances.map (fun b =>
          if b.id = a.id then { a with check_out := some ts } else b) })

/-- Modelled from the spec: `AttendanceService.create_attendance(identity_id,
attendance_date, status)` — the "explicit creation call" of §3, creating a
record "with that status and no check-in/check-out"; the persistence port
"must supply a uniqueness constraint on (identityId, date)" (§5), and a
store-detected duplicate is surfaced as a `ConflictError` with the partial
write rolled back (§7). -/
def svc_create_attendance (db : DB) (identity_id : Nat) (d : Int) (status : String) :
    Except ApiErr Attendance × DB :=
  match db.attendances.find? (fun a => decide (a.identity_id = identity_id ∧ a.date = d)) with
  | some _ => (.error .conflict, db)
  | none =>
    (.ok ⟨db.next_attendance_id, identity_id, d, status, none, none⟩,
     { db with
        attendances := db.attendances ++ [⟨db.next_attendance_id, identity_id, d, status, none, none⟩],
        next_attendance_id := db.next_attendance_id + 1 })

/-- Modelled from the spec: `AttendanceService.update_attendance_status
(attendance_id, status)` — "`updateStatus(recordId, status)`: fails with
`NotFoundError` if recordId absent", overwriting the status only. -/
def svc_update_attendance_status (db : DB) (attendance_id : Nat) (status : String) :
    Except ApiErr Attendance × DB :=
  match db.attendances.find? (fun a => a.id = attendance_id) with
  | none => (.error .notFound, db)
  | some a =>
    (.ok { a with status := status },
     { db with attendances := db.attendances.map (fun b =>
        if b.id = attendance_id then { a with status := status } else b) })

/- ========== easy_api.py ========== -/

/-- Python truthiness of an optional string argument (`None` and `""` are
falsy). -/
def falsyStr : Option String → Bool
  | none => true
  | some s => s = ""

/-- `easy_api.get_employee(employee_id=None, email=None)`: raises
`ValueError` when both arguments are falsy, otherwise looks up by
employee id first and falls back to the email lookup only when the first
lookup did not resolve. -/
def get_employee (db : DB) (employee_id email : Option String) :
    Except ApiErr (Option EmployeeData) :=
  if falsyStr employee_id && falsyStr email then
    .error .validation
  else
    .ok ((match (match employee_id with
                 | some e => if e = "" then none else get_identity_by_employee_id db e
                 | none => none : Option Identity) with
          | some x => some x
          | none =>
            match email with
            | some m => if m = "" then none else get_identity_by_email db m
            | none => none).map EmployeeData.from_identity)

/-- `easy_api.get_all_employees(include_inactive)`: fetches
`get_all_identities(limit=1000)`, filters out inactive rows unless asked
not to, and converts to `EmployeeData`. -/
def get_all_employees (db : DB) (include_inactive : Bool) : List EmployeeData :=
  ((if include_inactive then get_all_identities db 0 1000
    else (get_all_identities db 0 1000).filter (fun i => i.is_active)).map
    EmployeeData.from_identity)

/-- The attendance-details dictionary built by `mark_attendance` and the
check-in/check-out wrappers of `easy_api.py`. -/
def mkDetails (employee_id employee_name : String) (a : Attendance) : AttendanceDetails :=
  ⟨employee_id, employee_name, a.date, a.check_in, a.check_out, a.status⟩

/-- `easy_api.mark_attendance(employee_id, attendance_date, status)`:
resolves the employee (raising `ValueError` — `NotFoundError` — when
absent), queries the attendance records of that identity on the single-day
range `[date, date]`, and either updates the status of the first existing
record or creates a new record with the requested status. -/
def mark_attendance (db : DB) (employee_id : String) (d : Int) (status : String) :
    Except ApiErr AttendanceDetails × DB :=
  match get_identity_by_employee_id db employee_id with
  | none => (.error .notFound, db)
  | some identity =>
    match svc_get_attendance_by_date_range db identity.id d d with
    | a :: _ =>
      match svc_update_attendance_status db a.id status with
      | (.ok a2, db2) => (.ok (mkDetails employee_id identity.name a2), db2)
      | (.error e, db2) => (.error e, db2)
    | [] =>
      match svc_create_attendance db identity.id d status with
      | (.ok a2, db2) => (.ok (mkDetails employee_id identity.name a2), db2)
      | (.error e, db2) => (.error e, db2)

/-- Floor of a rational, computed on the numerator/denominator pair
(`Int.fdiv` is floor division). -/
def ratFloor (q : ℚ) : ℤ := Int.fdiv q.num q.den

/-- Round to the nearest integer, ties to even — the rounding of Python's
built-in `round` (binary floating-point representation artifacts are not
modelled; the arithmetic is exact on ℚ). -/
def roundHalfEven (q : ℚ) : ℤ :=
  if q - ratFloor q < 1 / 2 then ratFloor q
  else if 1 / 2 < q - ratFloor q then ratFloor q + 1
  else if ratFloor q % 2 = 0 then ratFloor q else ratFloor q + 1

/-- `round(x, 2)`: round to 2 decimal places. -/
def round2 (q : ℚ) : ℚ := (roundHalfEven (q * 100) : ℚ) / 100

/-- `easy_api._calculate_hours_worked(check_in, check_out)`: `None` when
either timestamp is missing, otherwise the difference converted to hours
(`total_seconds() / 3600`) rounded to 2 decimal places. -/
def calculate_hours_worked (check_in check_out : Option Int) : Option ℚ :=
  match check_in, check_out with
  | some ci, some co => some (round2 (((co : ℚ) - (ci : ℚ)) / 3600))
  | _, _ => none

/-- One row of an `easy_api.get_attendance_report` bucket. -/
structure ReportEntry where
  employee_id : String
  employee_name : String
  date : Int
  check_in : Option Int
  check_out : Option Int
  status : String
  hours_worked : Option ℚ
deriving DecidableEq

/-- The report dictionary of `easy_api.get_attendance_report`, with its
five fixed buckets. -/
structure Report where
  present : List ReportEntry
  absent : List ReportEntry
  late : List ReportEntry
  leave : List ReportEntry
  other : List ReportEntry
deriving DecidableEq

def emptyReport : Report := ⟨[], [], [], [], []⟩

/-- The `attendance_lookup` dictionary of `get_attendance_report`: a dict
built by one pass over the day's records, so for duplicate `identity_id`
keys the last record wins. -/
def lookupLast (atts : List Attendance) (identity_id : Nat) : Option Attendance :=
  atts.reverse.find? (fun a => a.identity_id = identity_id)

/-- The `attendance_data` dictionary built for one identity by
`get_attendance_report` (`None`-propagating field reads when the identity
has no record).  The status field is
`attendance.status if attendance else "Absent"`: it conditions only on the
record existing, so an empty stored status is reported verbatim — unlike
the bucket key below, which treats a falsy status as "absent". -/
def mkReportEntry (identity : Identity) (d : Int) (att : Option Attendance) : ReportEntry :=
  { employee_id := identity.employee_id
    employee_name := identity.name
    date := d
    check_in := match att with | some a => a.check_in | none => none
    check_out := match att with | some a => a.check_out | none => none
    status := match att with
      | some a => a.status
      | none => "Absent"
    hours_worked := calculate_hours_worked
      (match att with | some a => a.check_in | none => none)
      (match att with | some a => a.check_out | none => none) }

/-- Python's `str.lower()` for the ASCII status labels, written as an
explicit character map so that it evaluates. -/
def strToLower (s : String) : String := ⟨s.data.map Char.toLower⟩

/-- The raw `status_key` of `get_attendance_report`:
`attendance.status.lower() if attendance and attendance.status else "absent"`. -/
def rawStatusKey (att : Option Attendance) : String :=
  match att with
  | some a => if a.status ≠ "" then strToLower a.status else "absent"
  | none => "absent"

/-- The `if status_key not in report: status_key = "other"` step (the
report keys are exactly the five buckets). -/
def canonKey (k : String) : String :=
  if k = "present" ∨ k = "absent" ∨ k = "late" ∨ k = "leave" ∨ k = "other" then k else "other"

/-- `report[status_key].append(attendance_data)`. -/
def addToBucket (rep : Report) (key : String) (e : ReportEntry) : Report :=
  if key = "present" then { rep with present := rep.present ++ [e] }
  else if key = "absent" then { rep with absent := rep.absent ++ [e] }
  else if key = "late" then { rep with late := rep.late ++ [e] }
  else if key = "leave" then { rep with leave := rep.leave ++ [e] }
  else { rep with other := rep.other ++ [e] }

/-- The body of the per-identity loop of `get_attendance_report`. -/
def reportStep (att : List Attendance) (d : Int) (rep : Report) (identity : Identity) : Report :=
  addToBucket rep (canonKey (rawStatusKey (lookupLast att identity.id)))
    (mkReportEntry identity d (lookupLast att identity.id))

/-- `easy_api.get_attendance_report(report_date, include_inactive)`:
enumerates `get_all_identities(limit=1000)` (optionally filtered to active
rows), looks each identity's record for the date up in the per-day dict,
and appends one entry per identity to the bucket selected by its
lower-cased status. -/
def get_attendance_report (db : DB) (d : Int) (include_inactive : Bool) : Report :=
  ((if include_inactive then get_all_identities db 0 1000
    else (get_all_identities db 0 1000).filter (fun i => i.is_active)).foldl
    (reportStep (svc_get_attendance_by_date db d) d) emptyReport)

/-- All bucket rows of a report, in bucket order. -/
def reportEntries (r : Report) : List ReportEntry :=
  r.present ++ r.absent ++ r.late ++ r.leave ++ r.other

/-- The bucket the spec assigns to a status string: "buckets each entry by
its status lower-cased into one of the fixed buckets {present, absent,
late, leave, other}; any status string not matching a known bucket name
falls into other". -/
def statusBucket (s : String) : String := canonKey (strToLower s)

/- ========== Invariants and operation sequences ========== -/

/-- The upsert key of the ledger: `(identity_id, date)`. -/
def attKey (a : Attendance) : Nat × Int := (a.identity_id, a.date)

/-- The ledger's core uniqueness claim: at most one attendance record per
`(identity, date)` pair. -/
def UniquePerDay (db : DB) : Prop :=
  db.attendances.Pairwise (fun a b => attKey a ≠ attKey b)

/-- Well-formedness of the ledger table: unique `(identity, date)` keys,
unique primary keys, and every primary key below the autoincrement
counter. -/
def LedgerInv (db : DB) : Prop :=
  db.attendances.Pairwise (fun a b => attKey a ≠ attKey b) ∧
  db.attendances.Pairwise (fun a b => a.id ≠ b.id) ∧
  ∀ a ∈ db.attendances, a.id < db.next_attendance_id

/-- Well-formedness of the identity table: unique primary keys, unique
emails, unique employee ids (the store constraints of §3), and every
primary key below the autoincrement counter. -/
def DirInvariant (db : DB) : Prop :=
  db.identities.Pairwise (fun a b => a.id ≠ b.id) ∧
  db.identities.Pairwise (fun a b => a.email ≠ b.email) ∧
  db.identities.Pairwise (fun a b => a.employee_id ≠ b.employee_id) ∧
  ∀ i ∈ db.identities, i.id < db.next_identity_id

/-- The stored records for one `(identity, date)` pair. -/
def recordsFor (db : DB) (identity_id : Nat) (d : Int) : List Attendance :=
  db.attendances.filter (fun a => decide (a.identity_id = identity_id ∧ a.date = d))

/-- One call of the ledger interface: `checkIn`/`checkOut`/`create` at the
service level (keyed by identity id and date, as in §4.2) and `markStatus`
through `easy_api.mark_attendance` (keyed by employee id, the cited
implementation of the upsert). -/
inductive LedgerOp where
  | checkIn (identity_id : Nat) (d ts : Int)
  | checkOut (identity_id : Nat) (d ts : Int)
  | markStatus (employee_id : String) (d : Int) (status : String)
  | createRec (identity_id : Nat) (d : Int) (status : String)
deriving DecidableEq

/-- The database state reached after one ledger call (errors leave the
rolled-back state). -/
def applyOp (db : DB) : LedgerOp → DB
  | .checkIn i d ts => (svc_record_check_in db i d ts).2
  | .checkOut i d ts => (svc_record_check_out db i d ts).2
  | .markStatus e d s => (mark_attendance db e d s).2
  | .createRec i d s => (svc_create_attendance db i d s).2

/- ========== Concrete states used by witnesses and counterexamples ====== -/

/-- A sample active identity. -/
def identA : Identity := ⟨1, "Alice", "alice@example.com", "A", none, 0, true⟩

/-- A second sample active identity. -/
def identB : Identity := ⟨2, "Bob", "bob@example.com", "B", none, 0, true⟩

/-- A sample inactive identity. -/
def identC : Identity := ⟨3, "Carol", "carol@example.com", "C", none, 0, false⟩

/-- A store holding 1001 identities: 1000 copies of `identA` followed by
`identB`, so `identB` sits beyond the first 1000 rows. -/
def bigDB : DB := ⟨List.replicate 1000 identA ++ [identB], [], 4, 1⟩

/-- A small two-identity store (one active, one inactive), no attendance. -/
def smallDB : DB := ⟨[identA, identC], [], 4, 1⟩

/-- A single-identity store, no attendance. -/
def oneDB : DB := ⟨[identA], [], 4, 1⟩

/-- The empty store. -/
def emptyDB : DB := ⟨[], [], 1, 1⟩

/-- A single-identity store with one checked-in attendance record for
`identA` on day 5. -/
def dbAtt : DB := ⟨[identA], [⟨1, 1, 5, "Present", some 100, none⟩], 4, 2⟩

/-- A single-identity store whose one attendance record carries the empty
status string. -/
def dbEmptyStatus : DB := ⟨[identA], [⟨1, 1, 5, "", some 100, none⟩], 4, 2⟩

/-- Correct bucketing of a report, as the code actually behaves: every
entry sits in the bucket selected by its lower-cased, canonicalised
status — except that an entry whose status field is the empty string may
sit in the absent bucket (a record with an empty stored status is keyed
"absent" by the code while its status is reported verbatim). -/
def GoodReport (rep : Report) : Prop :=
  (∀ e ∈ rep.present, statusBucket e.status = "present") ∧
  (∀ e ∈ rep.absent, statusBucket e.status = "absent" ∨ e.status = "") ∧
  (∀ e ∈ rep.late, statusBucket e.status = "late") ∧
  (∀ e ∈ rep.leave, statusBucket e.status = "leave") ∧
  (∀ e ∈ rep.other, statusBucket e.status = "other")

/- ========== Generic list lemmas ========== -/

/-- Two members of a list that is pairwise distinct under a projection and
that agree on the projection are the same element. -/
theorem pairwise_proj_mem_eq {α β : Type} (f : α → β) :
    ∀ {l : List α}, l.Pairwise (fun a b => f a ≠ f b) →
      ∀ {a b : α}, a ∈ l → b ∈ l → f a = f b → a = b := by
  intro l hl
  induction hl with
  | nil => intro a b ha _ _; cases ha
  | cons hhead _ ih =>
    intro a b ha hb hf
    rcases List.mem_cons.mp ha with rfl | ha'
    · rcases List.mem_cons.mp hb with rfl | hb'
      · rfl
      · exact absurd hf (hhead _ hb')
    · rcases List.mem_cons.mp hb with rfl | hb'
      · exact absurd hf.symm (hhead _ ha')
      · exact ih ha' hb' hf

/-- `find?` with an equality-on-projection predicate returns the member
itself when the projection is pairwise distinct. -/
theorem find?_proj_eq_self {α β : Type} [DecidableEq β] (f : α → β) :
    ∀ {l : List α}, l.Pairwise (fun a b => f a ≠ f b) →
      ∀ {j : α}, j ∈ l → l.find? (fun x => f x = f j) = some j := by
  intro l hl
  induction l with
  | nil => intro j hj; cases hj
  | cons c t ih =>
    intro j hj
    rcases List.mem_cons.mp hj with rfl | hj'
    · exact List.find?_cons_of_pos _ (by simp)
    · have hne : f c ≠ f j := (List.pairwise_cons.mp hl).1 j hj'
      have ht := (List.pairwise_cons.mp hl).2
      rw [List.find?_cons_of_neg _ (by simp [hne])]
      exact ih ht hj'

/-- Replacing, by primary key, the first element satisfying `p` with an
element still satisfying `p` leaves that element as the first match. -/
theorem find?_map_replace {α : Type} (key : α → Nat) (p : α → Bool) (a a' : α) :
    ∀ (l : List α), l.find? p = some a → p a' = true →
      (l.map (fun b => if key b = key a then a' else b)).find? p = some a' := by
  intro l
  induction l with
  | nil => intro h; cases h
  | cons c t ih =>
    intro hfind hp
    by_cases hc : p c = true
    · have : c = a := by
        have := List.find?_cons_of_pos (l := t) hc
        rw [this] at hfind; exact Option.some.inj hfind
      subst this
      simp only [List.map_cons, if_pos rfl]
      exact List.find?_cons_of_pos _ hp
    · have hfind' : t.find? p = some a := by
        have := List.find?_cons_of_neg (l := t) (by simpa using hc)
        rw [this] at hfind; exact hfind
      simp only [List.map_cons]
      by_cases hk : key c = key a
      · rw [if_pos hk]
        exact List.find?_cons_of_pos _ hp
      · rw [if_neg hk]
        rw [List.find?_cons_of_neg _ (by simpa using hc)]
        exact ih hfind' hp

/-- Appending an element satisfying `p` to a list with no match makes it
the first match. -/
theorem find?_append_last {α : Type} (p : α → Bool) (a : α) :
    ∀ (l : List α), l.find? p = none → p a = true → (l ++ [a]).find? p = some a := by
  intro l
  induction l with
  | nil => intro _ hp; rw [List.nil_append]; exact List.find?_cons_of_pos _ hp
  | cons c t ih =>
    intro hfind hp
    rw [List.find?_eq_none] at hfind
    have hc : ¬p c = true := hfind c (List.mem_cons_self c t)
    have ht : t.find? p = none := List.find?_eq_none.mpr fun x hx => hfind x (List.mem_cons_of_mem _ hx)
    rw [List.cons_append, List.find?_cons_of_neg _ (by simpa using hc)]
    exact ih ht hp

/-- `filter` commutes with a `map` that preserves the predicate on
members. -/
theorem filter_map_comm {α : Type} (p : α → Bool) (g : α → α) :
    ∀ (l : List α), (∀ b ∈ l, p (g b) = p b) →
      (l.map g).filter p = (l.filter p).map g := by
  intro l
  induction l with
  | nil => intro _; rfl
  | cons c t ih =>
    intro h
    have hc := h c (List.mem_cons_self c t)
    have ht := fun b hb => h b (List.mem_cons_of_mem _ hb)
    by_cases hpc : p c = true
    · simp only [List.map_cons, List.filter_cons, hc, hpc, if_pos, List.map_cons]
      rw [ih ht]
    · have : p c = false := Bool.eq_false_iff.mpr hpc
      simp only [List.map_cons, List.filter_cons, hc, this, Bool.false_eq_true, if_neg,
        not_false_iff]
      exact ih ht

/-- A map that preserves a projection on members preserves pairwise
distinctness under that projection. -/
theorem pairwise_proj_map_of_mem {α β : Type} (f : α → β) (g : α → α) {l : List α}
    (hl : l.Pairwise (fun a b => f a ≠ f b)) (hg : ∀ a ∈ l, f (g a) = f a) :
    (l.map g).Pairwise (fun a b => f a ≠ f b) := by
  rw [List.pairwise_map]
  exact List.Pairwise.imp_of_mem (fun ha hb hne => by
    rw [hg _ ha, hg _ hb]; exact hne) hl

/- ========== Ledger invariant preservation ========== -/

/-- A record whose `(identity, date)` predicate fails has a different key. -/
theorem key_ne_of_not_pred (b : Attendance) (i : Nat) (d : Int)
    (h : ¬(b.identity_id = i ∧ b.date = d)) : attKey b ≠ (i, d) := by
  unfold attKey
  intro hk
  exact h ⟨congrArg Prod.fst hk, congrArg Prod.snd hk⟩

/-- Replacing one stored record by primary key with a record of the same
key and id preserves the ledger invariant. -/
theorem ledgerInv_map_replace (db : DB) (a a' : Attendance) (h : LedgerInv db)
    (ha : a ∈ db.attendances) (hkey : attKey a' = attKey a) (hid : a'.id = a.id) :
    LedgerInv { db with
      attendances := db.attendances.map (fun b => if b.id = a.id then a' else b) } := by
  obtain ⟨hk, hi, hb⟩ := h
  have hptid : ∀ b ∈ db.attendances, (if b.id = a.id then a' else b).id = b.id := by
    intro b hbm
    by_cases hba : b.id = a.id
    · rw [if_pos hba, hid, hba]
    · rw [if_neg hba]
  have hptkey : ∀ b ∈ db.attendances, attKey (if b.id = a.id then a' else b) = attKey b := by
    intro b hbm
    by_cases hba : b.id = a.id
    · have : b = a := pairwise_proj_mem_eq (fun x => x.id) hi hbm ha hba
      rw [if_pos hba, hkey, this]
    · rw [if_neg hba]
  refine ⟨?_, ?_, ?_⟩
  · exact pairwise_proj_map_of_mem attKey (fun b => if b.id = a.id then a' else b) hk hptkey
  · exact pairwise_proj_map_of_mem (fun x : Attendance => x.id)
      (fun b => if b.id = a.id then a' else b) hi hptid
  · intro b' hb'
    obtain ⟨b, hbm, rfl⟩ := List.mem_map.mp hb'
    rw [hptid b hbm]
    exact hb b hbm

/-- Appending a record with a fresh key and the next primary key preserves
the ledger invariant. -/
theorem ledgerInv_append (db : DB) (a : Attendance) (h : LedgerInv db)
    (hkey : ∀ b ∈ db.attendances, attKey b ≠ attKey a) (hid : a.id = db.next_attendance_id) :
    LedgerInv { db with
      attendances := db.attendances ++ [a],
      next_attendance_id := db.next_attendance_id + 1 } := by
  obtain ⟨hk, hi, hb⟩ := h
  refine ⟨?_, ?_, ?_⟩
  · exact List.pairwise_append.mpr ⟨hk, List.pairwise_singleton _ _,
      fun x hx y hy => by rw [List.mem_singleton.mp hy]; exact hkey x hx⟩
  · refine List.pairwise_append.mpr ⟨hi, List.pairwise_singleton _ _, ?_⟩
    intro x hx y hy
    rw [List.mem_singleton.mp hy, hid]
    exact Nat.ne_of_lt (hb x hx)
  · intro b hbm
    rcases List.mem_append.mp hbm with hbl | hbr
    · exact Nat.lt_succ_of_lt (hb b hbl)
    · rw [List.mem_singleton.mp hbr, hid]; exact Nat.lt_succ_self _

/-- `record_check_in` preserves the ledger invariant. -/
theorem ledgerInv_check_in (db : DB) (i : Nat) (d ts : Int) (h : LedgerInv db) :
    LedgerInv (svc_record_check_in db i d ts).2 := by
  unfold svc_record_check_in
  split
  · exact h
  · split
    next a heq =>
      exact ledgerInv_map_replace db a _ h (List.mem_of_find?_eq_some heq) rfl rfl
    next heq =>
      refine ledgerInv_append db _ h ?_ rfl
      intro b hbm
      have := List.find?_eq_none.mp heq b hbm
      exact key_ne_of_not_pred b i d (by simpa using this)

/-- `record_check_out` preserves the ledger invariant. -/
theorem ledgerInv_check_out (db : DB) (i : Nat) (d ts : Int) (h : LedgerInv db) :
    LedgerInv (svc_record_check_out db i d ts).2 := by
  unfold svc_record_check_out
  split
  · exact h
  next a heq =>
    split
    · exact h
    · exact ledgerInv_map_replace db a _ h (List.mem_of_find?_eq_some heq) rfl rfl

/-- `create_attendance` preserves the ledger invariant. -/
theorem ledgerInv_create (db : DB) (i : Nat) (d : Int) (s : String) (h : LedgerInv db) :
    LedgerInv (svc_create_attendance db i d s).2 := by
  unfold svc_create_attendance
  split
  · exact h
  next heq =>
    refine ledgerInv_append db _ h ?_ rfl
    intro b hbm
    have := List.find?_eq_none.mp heq b hbm
    exact key_ne_of_not_pred b i d (by simpa using this)

/-- `update_attendance_status` preserves the ledger invariant. -/
theorem ledgerInv_update_status (db : DB) (aid : Nat) (s : String) (h : LedgerInv db) :
    LedgerInv (svc_update_attendance_status db aid s).2 := by
  unfold svc_update_attendance_status
  split
  · exact h
  next a heq =>
    have hida : a.id = aid := by simpa using List.find?_some heq
    subst hida
    exact ledgerInv_map_replace db a _ h (List.mem_of_find?_eq_some heq) rfl rfl

/-- `update_attendance_status` leaves the identity table unchanged. -/
theorem update_status_identities (db : DB) (aid : Nat) (s : String) :
    (svc_update_attendance_status db aid s).2.identities = db.identities := by
  unfold svc_update_attendance_status
  split <;> rfl

/-- `create_attendance` leaves the identity table unchanged. -/
theorem create_attendance_identities (db : DB) (i : Nat) (d : Int) (s : String) :
    (svc_create_attendance db i d s).2.identities = db.identities := by
  unfold svc_create_attendance
  split <;> rfl

/-- `mark_attendance` preserves the ledger invariant. -/
theorem ledgerInv_mark (db : DB) (e : String) (d : Int) (s : String) (h : LedgerInv db) :
    LedgerInv (mark_attendance db e d s).2 := by
  unfold mark_attendance
  split
  · exact h
  next identity _ =>
    split
    next a rest heq =>
      have hupd := ledgerInv_update_status db a.id s h
      split
      next a2 db2 hmatch => rw [hmatch] at hupd; exact hupd
      next e2 db2 hmatch => rw [hmatch] at hupd; exact hupd
    next heq =>
      have hcr := ledgerInv_create db identity.id d s h
      split
      next a2 db2 hmatch => rw [hmatch] at hcr; exact hcr
      next e2 db2 hmatch => rw [hmatch] at hcr; exact hcr

/-- `mark_attendance` leaves the identity table unchanged. -/
theorem mark_identities (db : DB) (e : String) (d : Int) (s : String) :
    (mark_attendance db e d s).2.identities = db.identities := by
  unfold mark_attendance
  split
  · rfl
  next identity _ =>
    split
    next a rest heq =>
      have hupd := update_status_identities db a.id s
      split
      next a2 db2 hmatch => rw [hmatch] at hupd; exact hupd
      next e2 db2 hmatch => rw [hmatch] at hupd; exact hupd
    next heq =>
      have hcr := create_attendance_identities db identity.id d s
      split
      next a2 db2 hmatch => rw [hmatch] at hcr; exact hcr
      next e2 db2 hmatch => rw [hmatch] at hcr; exact hcr

/-- Every single ledger call preserves the ledger invariant. -/
theorem ledgerInv_applyOp (db : DB) (op : LedgerOp) (h : LedgerInv db) :
    LedgerInv (applyOp db op) := by
  cases op with
  | checkIn i d ts => exact ledgerInv_check_in db i d ts h
  | checkOut i d ts => exact ledgerInv_check_out db i d ts h
  | markStatus e d s => exact ledgerInv_mark db e d s h
  | createRec i d s => exact ledgerInv_create db i d s h

/-- Every sequence of ledger calls preserves the ledger invariant. -/
theorem ledgerInv_foldl (ops : List LedgerOp) :
    ∀ db : DB, LedgerInv db → LedgerInv (ops.foldl applyOp db) := by
  induction ops with
  | nil => exact fun db h => h
  | cons op rest ih => exact fun db h => ih (applyOp db op) (ledgerInv_applyOp db op h)

/-- Querying the single-day range `[d, d]` is querying the `(identity, d)`
key. -/
theorem range_dd_eq_recordsFor (db : DB) (i : Nat) (d : Int) :
    svc_get_attendance_by_date_range db i d d = recordsFor db i d := by
  unfold svc_get_attendance_by_date_range recordsFor
  refine List.filter_congr ?_
  intro a _
  refine decide_eq_decide.mpr ?_
  constructor
  · rintro ⟨h1, h2, h3⟩; exact ⟨h1, le_antisymm h3 h2⟩
  · rintro ⟨h1, h2⟩; exact ⟨h1, h2.ge, h2.le⟩

/-- Under the uniqueness invariant, the records for a key form at most a
singleton. -/
theorem recordsFor_tail_nil (db : DB) (i : Nat) (d : Int)
    (h : db.attendances.Pairwise fun a b => attKey a ≠ attKey b)
    (a : Attendance) (rest : List Attendance) (heq : recordsFor db i d = a :: rest) :
    rest = [] := by
  have hsub : (a :: rest).Pairwise (fun x y => attKey x ≠ attKey y) := by
    rw [← heq]
    exact List.Pairwise.sublist (List.filter_sublist _) h
  cases rest with
  | nil => rfl
  | cons b tail =>
    exfalso
    have hb : b ∈ recordsFor db i d := by rw [heq]; exact List.mem_cons_of_mem _ (List.mem_cons_self _ _)
    have ha : a ∈ recordsFor db i d := by rw [heq]; exact List.mem_cons_self _ _
    have hka : attKey a = (i, d) := by
      have := (List.mem_filter.mp ha).2
      simp only [decide_eq_true_eq] at this
      unfold attKey; rw [this.1, this.2]
    have hkb : attKey b = (i, d) := by
      have := (List.mem_filter.mp hb).2
      simp only [decide_eq_true_eq] at this
      unfold attKey; rw [this.1, this.2]
    exact (List.pairwise_cons.mp hsub).1 b (List.mem_cons_self _ _) (hka.trans hkb.symm)

/-- The central upsert lemma: `mark_attendance` for a resolved employee
leaves the identity table unchanged, preserves the ledger invariant, and
leaves exactly one stored record for the `(identity, date)` key, carrying
the requested status. -/
theorem mark_spec (db : DB) (e : String) (d : Int) (s : String) (i : Identity)
    (h : LedgerInv db) (hres : get_identity_by_employee_id db e = some i) :
    (mark_attendance db e d s).2.identities = db.identities ∧
    LedgerInv (mark_attendance db e d s).2 ∧
    ∃ r, recordsFor (mark_attendance db e d s).2 i.id d = [r] ∧ r.status = s := by
  refine ⟨mark_identities db e d s, ledgerInv_mark db e d s h, ?_⟩
  simp only [mark_attendance, hres]
  cases hrange : svc_get_attendance_by_date_range db i.id d d with
  | cons a rest =>
    have hrec : recordsFor db i.id d = a :: rest := by rw [← range_dd_eq_recordsFor]; exact hrange
    have hrest : rest = [] := recordsFor_tail_nil db i.id d h.1 a rest hrec
    subst hrest
    have hfrec : db.attendances.filter (fun x => decide (x.identity_id = i.id ∧ x.date = d)) = [a] := hrec
    have hamem : a ∈ db.attendances := by
      have : a ∈ db.attendances.filter (fun x => decide (x.identity_id = i.id ∧ x.date = d)) := by
        rw [hfrec]; exact List.mem_cons_self _ _
      exact (List.mem_filter.mp this).1
    have hfind : db.attendances.find? (fun x => x.id = a.id) = some a :=
      find?_proj_eq_self (fun x : Attendance => x.id) h.2.1 hamem
    have hupd : svc_update_attendance_status db a.id s =
        (.ok { a with status := s },
         { db with attendances := db.attendances.map (fun b =>
            if b.id = a.id then { a with status := s } else b) }) := by
      unfold svc_update_attendance_status
      rw [hfind]
    simp only [hupd]
    refine ⟨{ a with status := s }, ?_, rfl⟩
    unfold recordsFor
    rw [show ({ db with attendances := db.attendances.map (fun b =>
        if b.id = a.id then { a with status := s } else b) } : DB).attendances =
      db.attendances.map (fun b => if b.id = a.id then { a with status := s } else b) from rfl]
    rw [filter_map_comm (fun x => decide (x.identity_id = i.id ∧ x.date = d))
      (fun b => if b.id = a.id then { a with status := s } else b) db.attendances ?_]
    · rw [hfrec]
      simp
    · intro b hbm
      by_cases hba : b.id = a.id
      · have hbeq : b = a := pairwise_proj_mem_eq (fun x : Attendance => x.id) h.2.1 hbm hamem hba
        subst hbeq
        simp
      · simp [hba]
  | nil =>
    have hrec : recordsFor db i.id d = [] := by rw [← range_dd_eq_recordsFor]; exact hrange
    have hfrec : db.attendances.filter (fun x => decide (x.identity_id = i.id ∧ x.date = d)) = [] := hrec
    have hnone : db.attendances.find? (fun x => decide (x.identity_id = i.id ∧ x.date = d)) = none := by
      refine List.find?_eq_none.mpr ?_
      intro x hx
      exact (List.filter_eq_nil_iff.mp hfrec) x hx
    have hcr : svc_create_attendance db i.id d s =
        (.ok ⟨db.next_attendance_id, i.id, d, s, none, none⟩,
         { db with
            attendances := db.attendances ++ [⟨db.next_attendance_id, i.id, d, s, none, none⟩],
            next_attendance_id := db.next_attendance_id + 1 }) := by
      unfold svc_create_attendance
      rw [hnone]
    simp only [hcr]
    refine ⟨⟨db.next_attendance_id, i.id, d, s, none, none⟩, ?_, rfl⟩
    unfold recordsFor
    rw [show ({ db with
        attendances := db.attendances ++ [⟨db.next_attendance_id, i.id, d, s, none, none⟩],
        next_attendance_id := db.next_attendance_id + 1 } : DB).attendances =
      db.attendances ++ [⟨db.next_attendance_id, i.id, d, s, none, none⟩] from rfl]
    rw [List.filter_append, hfrec]
    simp

/- ========== Claim C1 ========== -/

/-- C1: for every identity and date, after any sequence of
`markStatus`/`checkIn`/`checkOut`/`create` ledger calls, at most one
attendance record exists per `(identity, date)` pair; in particular,
`markStatus` called twice for the same `(identityId, date)` with different
statuses leaves exactly one stored record, whose status is the second one
(upsert, no duplication). -/
theorem claim_C1_ledger_upsert (db : DB) (h : LedgerInv db) :
    (∀ ops : List LedgerOp, UniquePerDay (ops.foldl applyOp db)) ∧
    ∀ e d s1 s2 i, get_identity_by_employee_id db e = some i →
      ∃ r, recordsFor (mark_attendance (mark_attendance db e d s1).2 e d s2).2 i.id d = [r] ∧
        r.status = s2 := by
  constructor
  · intro ops
    exact (ledgerInv_foldl ops db h).1
  · intro e d s1 s2 i hres
    obtain ⟨hid1, hinv1, _⟩ := mark_spec db e d s1 i h hres
    have hres1 : get_identity_by_employee_id (mark_attendance db e d s1).2 e = some i := by
      unfold get_identity_by_employee_id at hres ⊢
      rw [hid1]
      exact hres
    exact (mark_spec (mark_attendance db e d s1).2 e d s2 i hinv1 hres1).2.2

/-- Witness for C1 on a concrete store: the invariant holds initially, a
check-in followed by a mark keeps keys unique, and marking "Present" then
"Leave" leaves one record with status "Leave". -/
theorem claim_C1_ledger_upsert_witness :
    LedgerInv oneDB ∧
    UniquePerDay ([LedgerOp.checkIn 1 5 100, LedgerOp.markStatus "A" 5 "Leave"].foldl applyOp oneDB) ∧
    ∃ r, recordsFor (mark_attendance (mark_attendance oneDB "A" 5 "Present").2 "A" 5 "Leave").2
      identA.id 5 = [r] ∧ r.status = "Leave" :=
  ⟨by unfold LedgerInv; decide,
   (claim_C1_ledger_upsert oneDB (by unfold LedgerInv; decide)).1 _,
   (claim_C1_ledger_upsert oneDB (by unfold LedgerInv; decide)).2 "A" 5 "Present" "Leave" identA
    (by decide)⟩

/- ========== Claim C2 ========== -/

/-- C2: if an identity with the given email or employee id already exists
(including inactive identities), `create_identity` fails with a
`ConflictError` and the directory state after the failed attempt equals
the state before it — no partial identity is persisted. -/
theorem claim_C2_create_conflict (db : DB) (nm em eid : String) (ph : Option String)
    (act : Bool) (now : Nat) (j : Identity) (hj : j ∈ db.identities)
    (hdup : j.email = em ∨ j.employee_id = eid) :
    (create_identity db nm em eid ph act now).1 = .error .conflict ∧
    (create_identity db nm em eid ph act now).2 = db := by
  have hany : db.identities.any (fun x => decide (x.email = em ∨ x.employee_id = eid)) = true :=
    List.any_eq_true.mpr ⟨j, hj, by simpa using hdup⟩
  unfold create_identity
  rw [if_pos hany]
  exact ⟨rfl, rfl⟩

/-- Witness for C2: creating over the email of the inactive `identC`
fails with a conflict and leaves the store untouched. -/
theorem claim_C2_create_conflict_witness :
    identC ∈ smallDB.identities ∧
    (identC.email = "carol@example.com" ∨ identC.employee_id = "X") ∧
    (create_identity smallDB "Dan" "carol@example.com" "X" none true 9).1 = .error .conflict ∧
    (create_identity smallDB "Dan" "carol@example.com" "X" none true 9).2 = smallDB :=
  ⟨by decide, by decide,
   claim_C2_create_conflict smallDB "Dan" "carol@example.com" "X" none true 9 identC
    (by decide) (by decide)⟩

/- ========== Claim C3 ========== -/

/-- C3: `checkOut(identityId, date, timestamp)` fails with a
`PreconditionError` exactly when no record with a check-in exists for
`(identityId, date)` (the failed call leaving the store untouched); on
success it sets check-out to the given timestamp and leaves the record's
status (and check-in) unchanged. -/
theorem claim_C3_check_out (db : DB) (i : Nat) (d ts : Int) (h : UniquePerDay db) :
    ((svc_record_check_out db i d ts).1 = .error .precondition ↔
      ¬ ∃ a ∈ db.attendances, a.identity_id = i ∧ a.date = d ∧ a.check_in ≠ none) ∧
    ((svc_record_check_out db i d ts).1 = .error .precondition →
      (svc_record_check_out db i d ts).2 = db) ∧
    ∀ a2 db2, svc_record_check_out db i d ts = (.ok a2, db2) →
      ∃ a ∈ db.attendances, a.identity_id = i ∧ a.date = d ∧
        a2 = { a with check_out := some ts } := by
  cases hfind : db.attendances.find? (fun a => decide (a.identity_id = i ∧ a.date = d)) with
  | none =>
    have hres : svc_record_check_out db i d ts = (.error .precondition, db) := by
      simp only [svc_record_check_out, hfind]
    refine ⟨?_, fun _ => by rw [hres], ?_⟩
    · rw [hres]
      simp only [true_iff]
      rintro ⟨a, ham, h1, h2, _⟩
      have := List.find?_eq_none.mp hfind a ham
      simp only [decide_eq_true_eq] at this
      exact this ⟨h1, h2⟩
    · intro a2 db2 heq
      rw [hres] at heq
      exact absurd (congrArg Prod.fst heq) (by simp)
  | some a =>
    have hamem : a ∈ db.attendances := List.mem_of_find?_eq_some hfind
    have hkey : a.identity_id = i ∧ a.date = d := by simpa using List.find?_some hfind
    cases hci : a.check_in with
    | none =>
      have hres : svc_record_check_out db i d ts = (.error .precondition, db) := by
        simp only [svc_record_check_out, hfind, hci]
      refine ⟨?_, fun _ => by rw [hres], ?_⟩
      · rw [hres]
        simp only [true_iff]
        rintro ⟨b, hbm, h1, h2, h3⟩
        have hba : b = a := by
          refine pairwise_proj_mem_eq attKey h hbm hamem ?_
          unfold attKey
          rw [h1, h2, hkey.1, hkey.2]
        rw [hba, hci] at h3
        exact h3 rfl
      · intro a2 db2 heq
        rw [hres] at heq
        exact absurd (congrArg Prod.fst heq) (by simp)
    | some t =>
      have hres : svc_record_check_out db i d ts =
          (.ok { a with check_out := some ts },
           { db with attendances := db.attendances.map (fun b =>
              if b.id = a.id then { a with check_out := some ts } else b) }) := by
        simp only [svc_record_check_out, hfind, hci]
      refine ⟨?_, ?_, ?_⟩
      · rw [hres]
        constructor
        · intro habs
          exact absurd habs (by simp)
        · intro hno
          exact absurd ⟨a, hamem, hkey.1, hkey.2, by rw [hci]; simp⟩ hno
      · rw [hres]
        intro habs
        exact absurd habs (by simp)
      · intro a2 db2 heq
        rw [hres] at heq
        have := congrArg Prod.fst heq
        simp only [Except.ok.injEq] at this
        exact ⟨a, hamem, hkey.1, hkey.2, this.symm⟩

/-- Witness for C3 on a concrete store with a checked-in record. -/
theorem claim_C3_check_out_witness :
    UniquePerDay dbAtt ∧
    ((svc_record_check_out dbAtt 1 5 200).1 = .error .precondition ↔
      ¬ ∃ a ∈ dbAtt.attendances, a.identity_id = 1 ∧ a.date = 5 ∧ a.check_in ≠ none) :=
  ⟨by unfold UniquePerDay; decide,
   (claim_C3_check_out dbAtt 1 5 200 (by unfold UniquePerDay; decide)).1⟩

/- ========== Claim C4 ========== -/

/-- C4: hours worked is `None` when either timestamp is absent and is the
check-out minus check-in difference in hours rounded to 2 decimal places
when both are present; in particular a check-in followed by a check-out
eight hours later yields exactly 8 hours. -/
theorem claim_C4_hours :
    (∀ co : Option Int, calculate_hours_worked none co = none) ∧
    (∀ ci : Option Int, calculate_hours_worked ci none = none) ∧
    (∀ a b : Int, calculate_hours_worked (some a) (some b) =
      some (round2 (((b : ℚ) - (a : ℚ)) / 3600))) ∧
    ∀ db i d ts a1 db1, svc_record_check_in db i d ts = (.ok a1, db1) →
      ∃ a2 db2, svc_record_check_out db1 i d (ts + 28800) = (.ok a2, db2) ∧
        calculate_hours_worked a2.check_in a2.check_out = some 8 := by
  refine ⟨fun co => by cases co <;> rfl, fun ci => by cases ci <;> rfl, fun a b => rfl, ?_⟩
  intro db i d ts a1 db1 heq
  have hhours : calculate_hours_worked (some ts) (some (ts + 28800)) = some 8 := by
    show some (round2 ((((ts + 28800 : Int) : ℚ) - (ts : ℚ)) / 3600)) = some 8
    have harg : (((ts + 28800 : Int) : ℚ) - (ts : ℚ)) / 3600 = 8 := by push_cast; ring
    rw [harg]
    have h8 : round2 8 = 8 := by norm_num [round2, roundHalfEven, ratFloor]
    rw [h8]
  cases hfi : db.identities.find? (fun x => x.id = i) with
  | none =>
    simp only [svc_record_check_in, hfi] at heq
    exact absurd (congrArg Prod.fst heq) (by simp)
  | some ident =>
    cases hfa : db.attendances.find? (fun a => decide (a.identity_id = i ∧ a.date = d)) with
    | some a =>
      simp only [svc_record_check_in, hfi, hfa] at heq
      have hdb1 : db1 = { db with attendances := db.attendances.map (fun b =>
          if b.id = a.id then { a with check_in := some ts, status := "Present" } else b) } :=
        (congrArg Prod.snd heq).symm
      have hkey : a.identity_id = i ∧ a.date = d := by simpa using List.find?_some hfa
      have hfind2 : db1.attendances.find?
          (fun x => decide (x.identity_id = i ∧ x.date = d)) =
          some { a with check_in := some ts, status := "Present" } := by
        rw [hdb1]
        exact find?_map_replace (fun x : Attendance => x.id) _ a _ db.attendances hfa
          (by simpa using hkey)
      have hres : svc_record_check_out db1 i d (ts + 28800) =
          (.ok { a with check_in := some ts, status := "Present", check_out := some (ts + 28800) },
           { db1 with attendances := db1.attendances.map (fun b =>
              if b.id = a.id then { a with check_in := some ts, status := "Present", check_out := some (ts + 28800) } else b) }) := by
        simp only [svc_record_check_out, hfind2]
      exact ⟨_, _, hres, hhours⟩
    | none =>
      simp only [svc_record_check_in, hfi, hfa] at heq
      have hdb1 : db1 = { db with
          attendances := db.attendances ++ [⟨db.next_attendance_id, i, d, "Present", some ts, none⟩],
          next_attendance_id := db.next_attendance_id + 1 } :=
        (congrArg Prod.snd heq).symm
      have hfind2 : db1.attendances.find?
          (fun x => decide (x.identity_id = i ∧ x.date = d)) =
          some ⟨db.next_attendance_id, i, d, "Present", some ts, none⟩ := by
        rw [hdb1]
        exact find?_append_last _ _ db.attendances hfa (by simp)
      have hres : svc_record_check_out db1 i d (ts + 28800) =
          (.ok ⟨db.next_attendance_id, i, d, "Present", some ts, some (ts + 28800)⟩,
           { db1 with attendances := db1.attendances.map (fun b =>
              if b.id = db.next_attendance_id then
                ⟨db.next_attendance_id, i, d, "Present", some ts, some (ts + 28800)⟩ else b) }) := by
        simp only [svc_record_check_out, hfind2]
      exact ⟨_, _, hres, hhours⟩

/-- Witness for C4: a concrete check-in at time 100 followed by a check-out
at time 100 + 8h gives exactly 8 hours. -/
theorem claim_C4_hours_witness :
    svc_record_check_in oneDB 1 5 100 = (.ok ⟨1, 1, 5, "Present", some 100, none⟩, dbAtt) ∧
    ∃ a2 db2, svc_record_check_out dbAtt 1 5 (100 + 28800) = (.ok a2, db2) ∧
      calculate_hours_worked a2.check_in a2.check_out = some 8 :=
  ⟨by rfl,
   claim_C4_hours.2.2.2 oneDB 1 5 100 ⟨1, 1, 5, "Present", some 100, none⟩ dbAtt (by rfl)⟩

/- ========== Claim C5 ========== -/

/-- Applying only name/email/phone keyword arguments leaves the id, the
employee id, the active flag and the creation timestamp untouched. -/
theorem setField_foldl_frame :
    ∀ (fields : List FieldVal) (i : Identity),
      (∀ f ∈ fields, isNameEmailPhone f = true) →
      (fields.foldl setField i).id = i.id ∧
      (fields.foldl setField i).employee_id = i.employee_id ∧
      (fields.foldl setField i).is_active = i.is_active ∧
      (fields.foldl setField i).created_at = i.created_at := by
  intro fields
  induction fields with
  | nil => exact fun i _ => ⟨rfl, rfl, rfl, rfl⟩
  | cons f rest ih =>
    intro i hf
    rw [List.foldl_cons]
    obtain ⟨h1, h2, h3, h4⟩ := ih (setField i f) (fun g hg => hf g (List.mem_cons_of_mem _ hg))
    have hff := hf f (List.mem_cons_self _ _)
    cases f with
    | name v => exact ⟨h1, h2, h3, h4⟩
    | email v => exact ⟨h1, h2, h3, h4⟩
    | phone v => exact ⟨h1, h2, h3, h4⟩
    | employee_id v => simp [isNameEmailPhone] at hff
    | is_active v => simp [isNameEmailPhone] at hff
    | idField v => simp [isNameEmailPhone] at hff
    | created_at v => simp [isNameEmailPhone] at hff

/-- C5: `update_identity` restricted to name/email/phone fields (the only
fields `easy_api.update_employee` ever passes) is a partial update: it
fails with `NotFoundError` — leaving the store untouched — when the id is
absent, and on success the updated row keeps its numeric id, employee id,
active flag and creation timestamp, while every other row survives
unchanged. -/
theorem claim_C5_update_frame (db : DB) (n : Nat) (fields : List FieldVal)
    (hf : ∀ f ∈ fields, isNameEmailPhone f = true) :
    (get_identity_by_id db n = none →
      (update_identity db n fields).1 = .error .notFound ∧
      (update_identity db n fields).2 = db) ∧
    ∀ i' db', update_identity db n fields = (.ok i', db') →
      ∃ i, get_identity_by_id db n = some i ∧
        i'.id = i.id ∧ i'.employee_id = i.employee_id ∧ i'.is_active = i.is_active ∧
        i'.created_at = i.created_at ∧
        ∀ j ∈ db.identities, j.id ≠ n → j ∈ db'.identities := by
  cases hfind : db.identities.find? (fun x => x.id = n) with
  | none =>
    have hres : update_identity db n fields = (.error .notFound, db) := by
      simp only [update_identity, hfind]
    constructor
    · intro _
      rw [hres]
      exact ⟨rfl, rfl⟩
    · intro i' db' heq
      rw [hres] at heq
      exact absurd (congrArg Prod.fst heq) (by simp)
  | some i =>
    constructor
    · intro habs
      unfold get_identity_by_id at habs
      rw [hfind] at habs
      exact absurd habs (by simp)
    · intro i' db' heq
      cases hany : db.identities.any (fun j =>
          decide (j.id ≠ n ∧
            (j.email = (fields.foldl setField i).email ∨
             j.employee_id = (fields.foldl setField i).employee_id))) with
      | true =>
        have hres : update_identity db n fields = (.error .conflict, db) := by
          simp only [update_identity, hfind]
          rw [if_pos hany]
        rw [hres] at heq
        exact absurd (congrArg Prod.fst heq) (by simp)
      | false =>
        have hres : update_identity db n fields =
            (.ok (fields.foldl setField i),
             { db with identities := db.identities.map (fun j => if j.id = n then fields.foldl setField i else j) }) := by
          simp only [update_identity, hfind]
          rw [if_neg (by rw [hany]; simp)]
        rw [hres] at heq
        have hi' : i' = fields.foldl setField i := by
          have := congrArg Prod.fst heq
          simpa using this.symm
        have hdb' : db' = { db with identities := db.identities.map (fun j => if j.id = n then fields.foldl setField i else j) } :=
          (congrArg Prod.snd heq).symm
        have hidn : i.id = n := by simpa using List.find?_some hfind
        obtain ⟨g1, g2, g3, g4⟩ := setField_foldl_frame fields i hf
        refine ⟨i, by unfold get_identity_by_id; exact hfind, ?_, ?_, ?_, ?_, ?_⟩
        · rw [hi']; exact g1
        · rw [hi']; exact g2
        · rw [hi']; exact g3
        · rw [hi']; exact g4
        · intro j hj hjn
          rw [hdb']
          have hjj : (fun j => if j.id = n then fields.foldl setField i else j) j = j := by
            simp [hjn]
          have hmm := List.mem_map_of_mem (fun j => if j.id = n then fields.foldl setField i else j) hj
          rw [hjj] at hmm
          exact hmm

/-- Witness for C5: updating name/email/phone of the only identity keeps
its employee id, active flag, id and creation timestamp. -/
theorem claim_C5_update_frame_witness :
    (∀ f ∈ ([.name "N", .email "n@example.com", .phone (some "1")] : List FieldVal),
      isNameEmailPhone f = true) ∧
    ((get_identity_by_id oneDB 1 = none →
      (update_identity oneDB 1 [.name "N", .email "n@example.com", .phone (some "1")]).1 =
        .error .notFound ∧
      (update_identity oneDB 1 [.name "N", .email "n@example.com", .phone (some "1")]).2 = oneDB) ∧
    ∀ i' db', update_identity oneDB 1 [.name "N", .email "n@example.com", .phone (some "1")] =
        (.ok i', db') →
      ∃ i, get_identity_by_id oneDB 1 = some i ∧
        i'.id = i.id ∧ i'.employee_id = i.employee_id ∧ i'.is_active = i.is_active ∧
        i'.created_at = i.created_at ∧
        ∀ j ∈ oneDB.identities, j.id ≠ 1 → j ∈ db'.identities) :=
  ⟨by decide,
   claim_C5_update_frame oneDB 1 [.name "N", .email "n@example.com", .phone (some "1")]
    (by decide)⟩

/- ========== Claim C6 ========== -/

/-- C6: a successful `create_identity` preserves the directory invariant,
stores the new identity, and afterwards every stored identity — the new
one included — is independently retrievable by its numeric id, its email
and its employee id, each lookup returning that same identity.  Applied
along any sequence of creations with distinct emails/employee ids this
keeps every created identity retrievable. -/
theorem claim_C6_create_retrievable (db : DB) (h : DirInvariant db) (nm em eid : String)
    (ph : Option String) (act : Bool) (now : Nat) (i : Identity) (db' : DB)
    (hc : create_identity db nm em eid ph act now = (.ok i, db')) :
    DirInvariant db' ∧ i ∈ db'.identities ∧
    ∀ j ∈ db'.identities,
      get_identity_by_id db' j.id = some j ∧
      get_identity_by_email db' j.email = some j ∧
      get_identity_by_employee_id db' j.employee_id = some j := by
  obtain ⟨hids, hemails, heids, hbound⟩ := h
  cases hany : db.identities.any (fun j => decide (j.email = em ∨ j.employee_id = eid)) with
  | true =>
    have hres : create_identity db nm em eid ph act now = (.error .conflict, db) := by
      unfold create_identity
      rw [if_pos hany]
    rw [hres] at hc
    exact absurd (congrArg Prod.fst hc) (by simp)
  | false =>
    have hno : ∀ j ∈ db.identities, ¬(j.email = em ∨ j.employee_id = eid) := by
      intro j hj
      have := List.any_eq_false.mp hany j hj
      simpa using this
    have hres : create_identity db nm em eid ph act now =
        (.ok ⟨db.next_identity_id, nm, em, eid, ph, now, act⟩,
         { db with identities := db.identities ++ [⟨db.next_identity_id, nm, em, eid, ph, now, act⟩], next_identity_id := db.next_identity_id + 1 }) := by
      unfold create_identity
      rw [if_neg (by rw [hany]; simp)]
    rw [hres] at hc
    have hi : i = ⟨db.next_identity_id, nm, em, eid, ph, now, act⟩ := by
      have := congrArg Prod.fst hc
      simpa using this.symm
    have hdb' : db' = { db with identities := db.identities ++ [⟨db.next_identity_id, nm, em, eid, ph, now, act⟩], next_identity_id := db.next_identity_id + 1 } :=
      (congrArg Prod.snd hc).symm
    subst hi
    subst hdb'
    have hdir : DirInvariant { db with identities := db.identities ++ [⟨db.next_identity_id, nm, em, eid, ph, now, act⟩], next_identity_id := db.next_identity_id + 1 } := by
      refine ⟨?_, ?_, ?_, ?_⟩
      · refine List.pairwise_append.mpr ⟨hids, List.pairwise_singleton _ _, ?_⟩
        intro a ha b hb
        rw [List.mem_singleton.mp hb]
        exact Nat.ne_of_lt (hbound a ha)
      · refine List.pairwise_append.mpr ⟨hemails, List.pairwise_singleton _ _, ?_⟩
        intro a ha b hb
        rw [List.mem_singleton.mp hb]
        intro habs
        exact hno a ha (Or.inl habs)
      · refine List.pairwise_append.mpr ⟨heids, List.pairwise_singleton _ _, ?_⟩
        intro a ha b hb
        rw [List.mem_singleton.mp hb]
        intro habs
        exact hno a ha (Or.inr habs)
      · intro a ha
        rcases List.mem_append.mp ha with hl | hr
        · exact Nat.lt_succ_of_lt (hbound a hl)
        · rw [List.mem_singleton.mp hr]
          exact Nat.lt_succ_self _
    refine ⟨hdir, List.mem_append_right _ (List.mem_singleton_self _), ?_⟩
    intro j hj
    refine ⟨?_, ?_, ?_⟩
    · unfold get_identity_by_id
      exact find?_proj_eq_self (fun x : Identity => x.id) hdir.1 hj
    · unfold get_identity_by_email
      exact find?_proj_eq_self (fun x : Identity => x.email) hdir.2.1 hj
    · unfold get_identity_by_employee_id
      exact find?_proj_eq_self (fun x : Identity => x.employee_id) hdir.2.2.1 hj

/-- Witness for C6: creating the first identity in the empty store makes
it retrievable by id, email and employee id. -/
theorem claim_C6_create_retrievable_witness :
    DirInvariant emptyDB ∧
    (DirInvariant ⟨[⟨1, "Ann", "ann@example.com", "E1", none, 0, true⟩], [], 2, 1⟩ ∧
     (⟨1, "Ann", "ann@example.com", "E1", none, 0, true⟩ : Identity) ∈
       (⟨[⟨1, "Ann", "ann@example.com", "E1", none, 0, true⟩], [], 2, 1⟩ : DB).identities ∧
     ∀ j ∈ (⟨[⟨1, "Ann", "ann@example.com", "E1", none, 0, true⟩], [], 2, 1⟩ : DB).identities,
       get_identity_by_id ⟨[⟨1, "Ann", "ann@example.com", "E1", none, 0, true⟩], [], 2, 1⟩ j.id = some j ∧
       get_identity_by_email ⟨[⟨1, "Ann", "ann@example.com", "E1", none, 0, true⟩], [], 2, 1⟩ j.email = some j ∧
       get_identity_by_employee_id ⟨[⟨1, "Ann", "ann@example.com", "E1", none, 0, true⟩], [], 2, 1⟩ j.employee_id = some j) :=
  ⟨by unfold DirInvariant; decide,
   claim_C6_create_retrievable emptyDB (by unfold DirInvariant; decide)
    "Ann" "ann@example.com" "E1" none true 0
    ⟨1, "Ann", "ann@example.com", "E1", none, 0, true⟩
    ⟨[⟨1, "Ann", "ann@example.com", "E1", none, 0, true⟩], [], 2, 1⟩ (by rfl)⟩

/- ========== Claim C7 ========== -/

/-- An active identity within the first 1000 rows appears in the active
listing. -/
theorem mem_get_all_employees (db : DB) (i : Identity) (hi : i ∈ db.identities)
    (hlen : db.identities.length ≤ 1000) (hact : i.is_active = true) :
    EmployeeData.from_identity i ∈ get_all_employees db false := by
  unfold get_all_employees get_all_identities
  rw [List.drop_zero, List.take_of_length_le hlen]
  have : i ∈ List.filter (fun x => x.is_active) db.identities :=
    List.mem_filter.mpr ⟨hi, by simp [hact]⟩
  simpa using List.mem_map_of_mem EmployeeData.from_identity this

/-- An inactive identity never appears in the active listing (employee ids
being unique). -/
theorem not_mem_get_all_employees (db : DB) (i : Identity) (hi : i ∈ db.identities)
    (h : DirInvariant db) (hact : i.is_active = false) :
    EmployeeData.from_identity i ∉ get_all_employees db false := by
  intro habs
  unfold get_all_employees get_all_identities at habs
  rw [List.drop_zero] at habs
  obtain ⟨x, hx, hfx⟩ := List.mem_map.mp habs
  have hx' : x ∈ List.filter (fun y => y.is_active) (db.identities.take 1000) := by
    simpa using hx
  have hxmem : x ∈ db.identities :=
    (List.take_sublist 1000 db.identities).mem (List.mem_filter.mp hx').1
  have hxact : x.is_active = true := by
    have := (List.mem_filter.mp hx').2
    simpa using this
  have hxeq : x = i :=
    pairwise_proj_mem_eq (fun y : Identity => y.employee_id) h.2.2.1 hxmem hi
      (congrArg EmployeeData.employee_id hfx)
  rw [hxeq, hact] at hxact
  exact absurd hxact (by simp)

/-- Toggling the active flag of a stored identity: the exact result state,
preservation of the directory invariant, and membership of the updated
row. -/
theorem set_active_spec (db : DB) (i : Identity) (hi : i ∈ db.identities)
    (h : DirInvariant db) (b : Bool) :
    update_identity db i.id [.is_active b] =
      (.ok { i with is_active := b },
       { db with identities := db.identities.map (fun j => if j.id = i.id then { i with is_active := b } else j) }) ∧
    DirInvariant { db with identities := db.identities.map (fun j => if j.id = i.id then { i with is_active := b } else j) } ∧
    { i with is_active := b } ∈
      ({ db with identities := db.identities.map (fun j => if j.id = i.id then { i with is_active := b } else j) } : DB).identities := by
  obtain ⟨hids, hemails, heids, hbound⟩ := h
  have hfind : db.identities.find? (fun x => x.id = i.id) = some i :=
    find?_proj_eq_self (fun x : Identity => x.id) hids hi
  have hanyF : db.identities.any (fun j =>
      decide (j.id ≠ i.id ∧
        (j.email = (([FieldVal.is_active b]).foldl setField i).email ∨
         j.employee_id = (([FieldVal.is_active b]).foldl setField i).employee_id))) = false := by
    refine List.any_eq_false.mpr ?_
    intro j hj
    simp only [decide_eq_true_eq, not_and]
    intro hne hcase
    rcases hcase with hc | hc
    · exact hne (congrArg Identity.id
        (pairwise_proj_mem_eq (fun y : Identity => y.email) hemails hj hi hc))
    · exact hne (congrArg Identity.id
        (pairwise_proj_mem_eq (fun y : Identity => y.employee_id) heids hj hi hc))
  have hpt : ∀ j ∈ db.identities,
      (if j.id = i.id then { i with is_active := b } else j).id = j.id ∧
      (if j.id = i.id then { i with is_active := b } else j).email = j.email ∧
      (if j.id = i.id then { i with is_active := b } else j).employee_id = j.employee_id := by
    intro j hj
    by_cases hji : j.id = i.id
    · have : j = i := pairwise_proj_mem_eq (fun y : Identity => y.id) hids hj hi hji
      subst this
      rw [if_pos hji]
      exact ⟨rfl, rfl, rfl⟩
    · rw [if_neg hji]
      exact ⟨rfl, rfl, rfl⟩
  refine ⟨?_, ⟨?_, ?_, ?_, ?_⟩, ?_⟩
  · simp only [update_identity, hfind]
    rw [if_neg (by rw [hanyF]; simp)]
    rfl
  · exact pairwise_proj_map_of_mem (fun y : Identity => y.id) _ hids
      (fun j hj => (hpt j hj).1)
  · exact pairwise_proj_map_of_mem (fun y : Identity => y.email) _ hemails
      (fun j hj => (hpt j hj).2.1)
  · exact pairwise_proj_map_of_mem (fun y : Identity => y.employee_id) _ heids
      (fun j hj => (hpt j hj).2.2)
  · intro a ha
    obtain ⟨x, hxm, rfl⟩ := List.mem_map.mp ha
    rw [(hpt x hxm).1]
    exact hbound x hxm
  · simpa using List.mem_map_of_mem
      (fun j => if j.id = i.id then { i with is_active := b } else j) hi

/-- C7 (amended): for every identity stored in a directory that satisfies
the store invariant and holds at most 1000 rows (rows beyond the first
1000 are always omitted by the 1000-row page, see the counterexample),
the identity appears in the active listing while active, `deactivate`
removes it from the active listing, and `reactivate` restores
`active = true` and its presence in the active listing. -/
theorem claim_C7_deactivate_reactivate (db : DB) (i : Identity) (hi : i ∈ db.identities)
    (hlen : db.identities.length ≤ 1000) (h : DirInvariant db) (hact : i.is_active = true) :
    EmployeeData.from_identity i ∈ get_all_employees db false ∧
    ∃ i1 db1, deactivate_identity db i.id = (.ok i1, db1) ∧
      EmployeeData.from_identity i1 ∉ get_all_employees db1 false ∧
      ∃ i2 db2, reactivate_identity db1 i.id = (.ok i2, db2) ∧
        i2.is_active = true ∧
        EmployeeData.from_identity i2 ∈ get_all_employees db2 false := by
  obtain ⟨heq1, hinv1, hmem1⟩ := set_active_spec db i hi h false
  refine ⟨mem_get_all_employees db i hi hlen hact, { i with is_active := false }, _, heq1, ?_, ?_⟩
  · exact not_mem_get_all_employees _ { i with is_active := false } hmem1 hinv1 rfl
  · obtain ⟨heq2, hinv2, hmem2⟩ := set_active_spec _ { i with is_active := false } hmem1 hinv1 true
    refine ⟨{ i with is_active := true }, _, heq2, rfl, ?_⟩
    refine mem_get_all_employees _ _ hmem2 ?_ rfl
    simp only [List.length_map]
    exact hlen

/-- Witness for C7 on a one-identity store. -/
theorem claim_C7_deactivate_reactivate_witness :
    identA ∈ oneDB.identities ∧ oneDB.identities.length ≤ 1000 ∧ DirInvariant oneDB ∧
    identA.is_active = true ∧
    (EmployeeData.from_identity identA ∈ get_all_employees oneDB false ∧
     ∃ i1 db1, deactivate_identity oneDB identA.id = (.ok i1, db1) ∧
       EmployeeData.from_identity i1 ∉ get_all_employees db1 false ∧
       ∃ i2 db2, reactivate_identity db1 identA.id = (.ok i2, db2) ∧
         i2.is_active = true ∧
         EmployeeData.from_identity i2 ∈ get_all_employees db2 false) :=
  ⟨by decide, by decide, by unfold DirInvariant; decide, by decide,
   claim_C7_deactivate_reactivate oneDB identA (by decide) (by decide)
    (by unfold DirInvariant; decide) (by decide)⟩

/-- Counterexample to C7 as frozen: in a store holding 1001 identities the
1001st (`identB`) is active and was never deactivated, yet it does not
appear in the active listing, because the listing fetches only the first
1000 rows. -/
theorem claim_C7_cex :
    identB ∈ bigDB.identities ∧ identB.is_active = true ∧
    EmployeeData.from_identity identB ∉ get_all_employees bigDB false := by
  refine ⟨?_, rfl, ?_⟩
  · exact List.mem_append_right _ (List.mem_singleton_self _)
  · intro habs
    have htake : ((List.replicate 1000 identA ++ [identB]).drop 0).take 1000 =
        List.replicate 1000 identA := by
      rw [List.drop_zero]
      exact List.take_left' (List.length_replicate 1000 identA)
    unfold get_all_employees get_all_identities bigDB at habs
    rw [htake] at habs
    obtain ⟨x, hx, hfx⟩ := List.mem_map.mp habs
    have hxrep : x ∈ List.replicate 1000 identA := by
      have hx' : x ∈ List.filter (fun y => y.is_active) (List.replicate 1000 identA) := hx
      exact (List.mem_filter.mp hx').1
    have hxA : x = identA := List.eq_of_mem_replicate hxrep
    have : identA.employee_id = identB.employee_id := by
      rw [← hxA]
      exact congrArg EmployeeData.employee_id hfx
    exact absurd this (by decide)

/- ========== Claim C8 ========== -/

/-- `canonKey` always lands in one of the five buckets. -/
theorem canonKey_cases (k : String) :
    canonKey k = "present" ∨ canonKey k = "absent" ∨ canonKey k = "late" ∨
    canonKey k = "leave" ∨ canonKey k = "other" := by
  unfold canonKey
  split
  next h => tauto
  next h => tauto

/-- The bucket key the code computes from the looked-up record either
coincides with the bucket the spec computes from the reported status
string, or the reported status is empty and the code keys it "absent". -/
theorem statusBucket_mkReportEntry (identity : Identity) (d : Int) (att : Option Attendance) :
    statusBucket (mkReportEntry identity d att).status = canonKey (rawStatusKey att) ∨
    ((mkReportEntry identity d att).status = "" ∧ canonKey (rawStatusKey att) = "absent") := by
  cases att with
  | none => exact Or.inl rfl
  | some a =>
    by_cases hs : a.status = ""
    · refine Or.inr ⟨hs, ?_⟩
      show canonKey (if a.status ≠ "" then strToLower a.status else "absent") = "absent"
      rw [if_neg (by simpa using hs)]
      rfl
    · refine Or.inl ?_
      show statusBucket a.status =
        canonKey (if a.status ≠ "" then strToLower a.status else "absent")
      rw [if_pos hs]
      rfl

/-- Appending an entry to the bucket the code keys it with keeps a report
correctly bucketed: the key either matches the entry's lower-cased status
or the entry's status is empty and the key is "absent". -/
theorem goodReport_addToBucket (rep : Report) (e : ReportEntry) (k : String)
    (hrep : GoodReport rep)
    (hk : statusBucket e.status = k ∨ (e.status = "" ∧ k = "absent")) :
    GoodReport (addToBucket rep k e) := by
  obtain ⟨hp, ha, hl, hv, ho⟩ := hrep
  unfold addToBucket
  split_ifs with h1 h2 h3 h4
  · refine ⟨?_, ha, hl, hv, ho⟩
    intro x hx
    rcases List.mem_append.mp hx with hx | hx
    · exact hp x hx
    · rw [List.mem_singleton.mp hx]
      rcases hk with hk | ⟨_, hk2⟩
      · rw [hk, h1]
      · rw [hk2] at h1; exact absurd h1 (by decide)
  · refine ⟨hp, ?_, hl, hv, ho⟩
    intro x hx
    rcases List.mem_append.mp hx with hx | hx
    · exact ha x hx
    · rw [List.mem_singleton.mp hx]
      rcases hk with hk | ⟨hk1, _⟩
      · exact Or.inl (by rw [hk, h2])
      · exact Or.inr hk1
  · refine ⟨hp, ha, ?_, hv, ho⟩
    intro x hx
    rcases List.mem_append.mp hx with hx | hx
    · exact hl x hx
    · rw [List.mem_singleton.mp hx]
      rcases hk with hk | ⟨_, hk2⟩
      · rw [hk, h3]
      · rw [hk2] at h3; exact absurd h3 (by decide)
  · refine ⟨hp, ha, hl, ?_, ho⟩
    intro x hx
    rcases List.mem_append.mp hx with hx | hx
    · exact hv x hx
    · rw [List.mem_singleton.mp hx]
      rcases hk with hk | ⟨_, hk2⟩
      · rw [hk, h4]
      · rw [hk2] at h4; exact absurd h4 (by decide)
  · refine ⟨hp, ha, hl, hv, ?_⟩
    intro x hx
    rcases List.mem_append.mp hx with hx | hx
    · exact ho x hx
    · rw [List.mem_singleton.mp hx]
      rcases hk with hk | ⟨_, hk2⟩
      · have hfive := canonKey_cases (strToLower e.status)
        unfold statusBucket at hk ⊢
        rw [hk] at hfive
        rw [hk]
        rcases hfive with h | h | h | h | h
        · exact absurd h h1
        · exact absurd h h2
        · exact absurd h h3
        · exact absurd h h4
        · exact h
      · exact absurd hk2 h2

/-- The per-identity report loop keeps a report correctly bucketed. -/
theorem goodReport_foldl (att : List Attendance) (d : Int) :
    ∀ (l : List Identity) (rep : Report), GoodReport rep →
      GoodReport (l.foldl (reportStep att d) rep) := by
  intro l
  induction l with
  | nil => exact fun rep h => h
  | cons c t ih =>
    intro rep h
    rw [List.foldl_cons]
    exact ih _ (goodReport_addToBucket rep (mkReportEntry c d (lookupLast att c.id))
      (canonKey (rawStatusKey (lookupLast att c.id))) h (statusBucket_mkReportEntry c d _))

/-- Entries already in the absent bucket survive the rest of the loop. -/
theorem absent_mono (att : List Attendance) (d : Int) :
    ∀ (l : List Identity) (rep : Report) (x : ReportEntry), x ∈ rep.absent →
      x ∈ (l.foldl (reportStep att d) rep).absent := by
  intro l
  induction l with
  | nil => exact fun rep x h => h
  | cons c t ih =>
    intro rep x h
    rw [List.foldl_cons]
    refine ih _ x ?_
    unfold reportStep addToBucket
    split_ifs
    · exact h
    · exact List.mem_append_left _ h
    · exact h
    · exact h
    · exact h

/-- An enumerated identity with no record for the day contributes its
synthesized "Absent" entry to the absent bucket. -/
theorem absent_entry_mem (att : List Attendance) (d : Int) :
    ∀ (l : List Identity) (rep : Report) (i : Identity), i ∈ l →
      lookupLast att i.id = none →
      mkReportEntry i d none ∈ (l.foldl (reportStep att d) rep).absent := by
  intro l
  induction l with
  | nil => intro rep i hi; cases hi
  | cons c t ih =>
    intro rep i hi hnone
    rw [List.foldl_cons]
    rcases List.mem_cons.mp hi with rfl | hit
    · refine absent_mono att d t _ _ ?_
      unfold reportStep
      rw [hnone]
      show mkReportEntry i d none ∈ (addToBucket rep "absent" (mkReportEntry i d none)).absent
      unfold addToBucket
      rw [if_neg (by decide), if_pos rfl]
      simp
    · exact ih _ i hit hnone

/-- C8 (amended): in `get_attendance_report(date, include_inactive=false)`,
every enumerated active identity with no attendance record on the date
lands in the absent bucket with null check-in, null check-out, status
"Absent" and null hours worked; and every entry of every bucket is
bucketed by its status lower-cased into the five fixed buckets with
unknown statuses falling into "other" — except that an entry for a record
whose stored status is the empty string keeps that empty status yet is
placed in the absent bucket (`GoodReport`; see `claim_C8_cex`). -/
theorem claim_C8_daily_report (db : DB) (d : Int) :
    (∀ i ∈ (get_all_identities db 0 1000).filter (fun x => x.is_active),
      lookupLast (svc_get_attendance_by_date db d) i.id = none →
      (⟨i.employee_id, i.name, d, none, none, "Absent", none⟩ : ReportEntry) ∈
        (get_attendance_report db d false).absent) ∧
    GoodReport (get_attendance_report db d false) := by
  constructor
  · intro i hi hnone
    exact absent_entry_mem (svc_get_attendance_by_date db d) d
      ((get_all_identities db 0 1000).filter (fun x => x.is_active)) emptyReport i hi hnone
  · refine goodReport_foldl (svc_get_attendance_by_date db d) d _ emptyReport ?_
    refine ⟨?_, ?_, ?_, ?_, ?_⟩ <;> intro x hx <;> exact absurd hx (List.not_mem_nil x)

/-- Witness for C8: the active `identA` of the two-identity store has no
record on day 7 and appears in the absent bucket with null fields. -/
theorem claim_C8_daily_report_witness :
    identA ∈ (get_all_identities smallDB 0 1000).filter (fun x => x.is_active) ∧
    lookupLast (svc_get_attendance_by_date smallDB 7) identA.id = none ∧
    (⟨identA.employee_id, identA.name, 7, none, none, "Absent", none⟩ : ReportEntry) ∈
      (get_attendance_report smallDB 7 false).absent :=
  ⟨by decide, by rfl,
   (claim_C8_daily_report smallDB 7).1 identA (by decide) (by rfl)⟩

/-- Counterexample to C8 as frozen: the store `dbEmptyStatus` holds one
record with the empty stored status; the report places its entry — whose
status field stays the empty string, per
`attendance.status if attendance else "Absent"` — in the absent bucket,
while its status lower-cased matches no bucket name, so the claim's rule
("any status string not matching a bucket name falls into other") would
put it in the other bucket. -/
theorem claim_C8_cex :
    (⟨"A", "Alice", 5, some 100, none, "", none⟩ : ReportEntry) ∈
      (get_attendance_report dbEmptyStatus 5 false).absent ∧
    (⟨"A", "Alice", 5, some 100, none, "", none⟩ : ReportEntry) ∉
      (get_attendance_report dbEmptyStatus 5 false).other ∧
    statusBucket "" = "other" :=
  ⟨by decide, by decide, by decide⟩

/- ========== Claim C9 ========== -/

/-- C9: `get_employee` raises `ValueError` whenever both arguments are
falsy — for every store state, so before any store interaction — and when
the employee-id argument is truthy and resolves, the resolved identity is
returned no matter what the email argument is. -/
theorem claim_C9_get_employee (db : DB) :
    (∀ employee_id email : Option String,
      falsyStr employee_id = true → falsyStr email = true →
      get_employee db employee_id email = .error .validation) ∧
    ∀ e i email, e ≠ "" → get_identity_by_employee_id db e = some i →
      get_employee db (some e) email = .ok (some (EmployeeData.from_identity i)) := by
  constructor
  · intro eid em h1 h2
    unfold get_employee
    rw [if_pos (by rw [h1, h2]; rfl)]
  · intro e i em hne hres
    have hfirst : (match some e with
        | some x => if x = "" then none else get_identity_by_employee_id db x
        | none => none : Option Identity) = some i := by
      show (if e = "" then none else get_identity_by_employee_id db e) = some i
      rw [if_neg hne, hres]
    unfold get_employee
    rw [if_neg (by simp [falsyStr, hne])]
    rw [hfirst]
    rfl

/-- Witness for C9: both arguments falsy raises the validation error; a
resolving employee id returns that employee whatever the email says. -/
theorem claim_C9_get_employee_witness :
    (falsyStr none = true ∧ falsyStr (some "") = true ∧
     get_employee oneDB none (some "") = .error .validation) ∧
    ("A" ≠ "" ∧ get_identity_by_employee_id oneDB "A" = some identA ∧
     get_employee oneDB (some "A") (some "zz@example.com") =
       .ok (some (EmployeeData.from_identity identA))) :=
  ⟨⟨rfl, by decide, (claim_C9_get_employee oneDB).1 none (some "") rfl (by decide)⟩,
   ⟨by decide, by rfl,
    (claim_C9_get_employee oneDB).2 "A" identA (some "zz@example.com") (by decide) (by rfl)⟩⟩

/- ========== Claim C10 ========== -/

/-- A bucket member of `addToBucket` is either an old member or the added
entry. -/
theorem reportEntries_addToBucket (rep : Report) (k : String) (e x : ReportEntry)
    (hx : x ∈ reportEntries (addToBucket rep k e)) :
    x ∈ reportEntries rep ∨ x = e := by
  unfold addToBucket at hx
  unfold reportEntries at hx ⊢
  split_ifs at hx <;>
    simp only [List.mem_append, List.mem_singleton] at hx ⊢ <;> tauto

/-- Every report entry produced by the loop stems from an enumerated
identity (or was already in the accumulator). -/
theorem reportEntries_foldl (att : List Attendance) (d : Int) :
    ∀ (l : List Identity) (rep : Report) (x : ReportEntry),
      x ∈ reportEntries (l.foldl (reportStep att d) rep) →
      x ∈ reportEntries rep ∨ ∃ j ∈ l, x.employee_id = j.employee_id := by
  intro l
  induction l with
  | nil => exact fun rep x h => Or.inl h
  | cons c t ih =>
    intro rep x h
    rw [List.foldl_cons] at h
    rcases ih _ x h with hcase | ⟨j, hj, hje⟩
    · rcases reportEntries_addToBucket rep (canonKey (rawStatusKey (lookupLast att c.id)))
        (mkReportEntry c d (lookupLast att c.id)) x hcase with h1 | h1
      · exact Or.inl h1
      · refine Or.inr ⟨c, List.mem_cons_self _ _, ?_⟩
        rw [h1]
        rfl
    · exact Or.inr ⟨j, List.mem_cons_of_mem _ hj, hje⟩

/-- C10: `get_all_employees` and `get_attendance_report` enumerate at most
the first 1000 identities of the store; an identity sitting beyond the
first 1000 rows (with an employee id distinct from those of the first
1000) appears neither in the employee list nor in any bucket of the daily
report. -/
theorem claim_C10_thousand_cap (db : DB) (b : Bool) (d : Int) (i : Identity)
    (hmem : i ∈ db.identities.drop 1000)
    (hdist : ∀ j ∈ db.identities.take 1000, j.employee_id ≠ i.employee_id) :
    (∀ e ∈ get_all_employees db b, e.employee_id ≠ i.employee_id) ∧
    ∀ e ∈ reportEntries (get_attendance_report db d b), e.employee_id ≠ i.employee_id := by
  constructor
  · intro e he
    unfold get_all_employees get_all_identities at he
    rw [List.drop_zero] at he
    have hxe : ∃ x ∈ db.identities.take 1000, EmployeeData.from_identity x = e := by
      cases b with
      | true =>
        obtain ⟨x, hx, hfx⟩ := List.mem_map.mp he
        exact ⟨x, hx, hfx⟩
      | false =>
        obtain ⟨x, hx, hfx⟩ := List.mem_map.mp he
        exact ⟨x, (List.mem_filter.mp hx).1, hfx⟩
    obtain ⟨x, hxtake, rfl⟩ := hxe
    exact hdist x hxtake
  · intro e he
    unfold get_attendance_report at he
    rcases reportEntries_foldl (svc_get_attendance_by_date db d) d _ emptyReport e he with
      h0 | ⟨j, hj, hje⟩
    · exact absurd h0 (by simp [reportEntries, emptyReport])
    · have hjtake : j ∈ (db.identities.drop 0).take 1000 := by
        cases b with
        | true => exact hj
        | false => exact (List.mem_filter.mp hj).1
      rw [List.drop_zero] at hjtake
      rw [hje]
      exact hdist j hjtake

/-- Witness for C10: in the 1001-identity store, `identB` (row 1001) is
absent from the employee list and from every report bucket. -/
theorem claim_C10_thousand_cap_witness :
    identB ∈ bigDB.identities.drop 1000 ∧
    (∀ j ∈ bigDB.identities.take 1000, j.employee_id ≠ identB.employee_id) ∧
    ((∀ e ∈ get_all_employees bigDB false, e.employee_id ≠ identB.employee_id) ∧
     ∀ e ∈ reportEntries (get_attendance_report bigDB 0 false),
       e.employee_id ≠ identB.employee_id) := by
  have hmem : identB ∈ bigDB.identities.drop 1000 := by
    show identB ∈ (List.replicate 1000 identA ++ [identB]).drop 1000
    rw [List.drop_left' (List.length_replicate 1000 identA)]
    exact List.mem_singleton_self _
  have hdist : ∀ j ∈ bigDB.identities.take 1000, j.employee_id ≠ identB.employee_id := by
    intro j hj
    have hj' : j ∈ List.replicate 1000 identA := by
      have htake : (List.replicate 1000 identA ++ [identB]).take 1000 =
          List.replicate 1000 identA := List.take_left' (List.length_replicate 1000 identA)
      show j ∈ List.replicate 1000 identA
      rw [← htake]
      exact hj
    rw [List.eq_of_mem_replicate hj']
    decide
  exact ⟨hmem, hdist, claim_C10_thousand_cap bigDB false 0 identB hmem hdist⟩
